import Mathlib

/-!
A shallow embedding of the CHIP-8 emulator core: the frame buffer with its
XOR sprite drawing (graphics.rs), the linear address space with font and
program loading (memory.rs), and the interpreter state with its opcode
dispatch (cpu.rs).  Machine integers are modelled as `Nat` with explicit
`% 2 ^ w` wrapping where the original wraps, and operations that index a
fixed-size array out of bounds are modelled as `Option` failures (`none`).
-/

/-- The 64 x 32 monochrome frame buffer, stored row-major as in
`Display.memory` / `TestDisplay.memory`: cell (x, y) lives at index
`x + y * 64`.  Out-of-range indices are carried by the total function but
never touched by the emulator. -/
abbrev FrameBuf := Nat → Bool

/-- graphics.rs `set_pixel`: `self.memory[x + y * WIDTH] = on as u8`. -/
def set_pixel (m : FrameBuf) (x y : Nat) (b : Bool) : FrameBuf :=
  Function.update m (x + y * 64) b

/-- graphics.rs `get_pixel`: `self.memory[x + y * WIDTH] == 1`. -/
def get_pixel (m : FrameBuf) (x y : Nat) : Bool :=
  m (x + y * 64)

/-- One iteration of the inner bit loop of `draw` (identical in
`Display::draw` and `TestDisplay::draw`): for bit `i` of sprite row `row`
(row index `j`), if the bit is set, read the destination pixel at the
wrapped coordinates, record a collision when it was on, and XOR the bit
into it. -/
def drawStep (x y row j : Nat) (st : FrameBuf × Bool) (i : Nat) : FrameBuf × Bool :=
  let curr := (row >>> (7 - i)) &&& 1
  if curr = 1 then
    let xi := (x + i) % 64
    let yj := (y + j) % 32
    let prev := get_pixel st.1 xi yj
    (set_pixel st.1 xi yj (Bool.xor (curr == 1) prev), if prev then true else st.2)
  else st

/-- graphics.rs `draw` (both implementations): fold the two nested loops
`for j in 0..rows { for i in 0..8 { ... } }` over the start state
`(framebuffer, collision = false)`; the returned `Bool` is the collision
flag. -/
def draw (m : FrameBuf) (x y : Nat) (sprite : List Nat) : FrameBuf × Bool :=
  (List.range sprite.length).foldl
    (fun st j => (List.range 8).foldl (fun st2 i => drawStep x y (sprite.getD j 0) j st2 i) st)
    (m, false)

/-- Whether bit `i` (most significant first) of sprite row `j` is set:
`sprite[j] >> (7 - i) & 0x01 == 1`. -/
def spriteBit (sprite : List Nat) (j i : Nat) : Bool :=
  decide (((sprite.getD j 0) >>> (7 - i)) &&& 1 = 1)

/-- Row-major index of the frame-buffer cell targeted by bit `i` of sprite
row `j` when drawing at `(x, y)`: `((x+i) mod 64) + ((y+j) mod 32) * 64`. -/
def cellIdx (x y j i : Nat) : Nat :=
  (x + i) % 64 + ((y + j) % 32) * 64

/-- The (row, bit) pairs visited by the two nested loops of `draw`, in
visiting order: (0,0), (0,1), ..., (0,7), (1,0), ... -/
def spriteBits : Nat → List (Nat × Nat)
  | 0 => []
  | l + 1 => spriteBits l ++ (List.range 8).map (fun i => (l, i))

/-- The body of the nested loops of `draw` as a single step function on
(row, bit) pairs, used to reason about `draw` as one linear fold. -/
def drawStepP (x y : Nat) (sprite : List Nat) (st : FrameBuf × Bool) (p : Nat × Nat) :
    FrameBuf × Bool :=
  drawStep x y (sprite.getD p.1 0) p.1 st p.2

/-- The frame-buffer/collision state of `draw` after processing only the
first `k` (row, bit) pairs, i.e. the state "just before" pair number `k`
is processed. -/
def drawUpTo (m : FrameBuf) (x y : Nat) (sprite : List Nat) (k : Nat) : FrameBuf × Bool :=
  ((spriteBits sprite.length).take k).foldl (drawStepP x y sprite) (m, false)

/-- memory.rs `FONTSET`: the 80-byte built-in font, 16 glyphs of 5 bytes. -/
def FONTSET : List Nat :=
  [0xF0, 0x90, 0x90, 0x90, 0xF0,
   0x20, 0x60, 0x20, 0x20, 0x70,
   0xF0, 0x10, 0xF0, 0x80, 0xF0,
   0xF0, 0x10, 0xF0, 0x10, 0xF0,
   0x90, 0x90, 0xF0, 0x10, 0x10,
   0xF0, 0x80, 0xF0, 0x10, 0xF0,
   0xF0, 0x80, 0xF0, 0x90, 0xF0,
   0xF0, 0x10, 0x20, 0x40, 0x40,
   0xF0, 0x90, 0xF0, 0x90, 0xF0,
   0xF0, 0x90, 0xF0, 0x10, 0xF0,
   0xF0, 0x90, 0xF0, 0x90, 0x90,
   0xE0, 0x90, 0xE0, 0x90, 0xE0,
   0xF0, 0x80, 0x80, 0x80, 0xF0,
   0xE0, 0x90, 0x90, 0x90, 0xE0,
   0xF0, 0x80, 0xF0, 0x80, 0xF0,
   0xF0, 0x80, 0xF0, 0x80, 0x80]

/-- Sequential write of a byte list into the 4096-byte RAM starting at
`base`, mirroring the loops in `Memory::dump_fontset` and
`Memory::dump_program` (`memory[idx + base] = src[idx]`); a write at or
beyond `size` is an out-of-bounds fault (`none`). -/
def storeListChecked (mem : Nat → Nat) (base : Nat) (src : List Nat) (size : Nat) :
    Option (Nat → Nat) :=
  match src with
  | [] => some mem
  | b :: rest =>
    if base < size then storeListChecked (Function.update mem base b) (base + 1) rest size
    else none

/-- memory.rs `Memory::new`: zero-initialise 4096 bytes, dump the font at
offset 0, then copy the ROM starting at `END_RESERVED = 0x200`. -/
def Memory.new (rom : List Nat) : Option (Nat → Nat) :=
  (storeListChecked (fun _ => 0) 0 FONTSET 4096).bind
    (fun m1 => storeListChecked m1 512 rom 4096)

/-- cpu.rs `Cpu` together with the interconnect state it owns: `ram` is
the `Memory`, `disp` the graphics frame buffer, `keys` the 16-entry
keyboard state read by `is_key_down`. -/
structure Cpu where
  pc : Nat
  stack : Nat → Nat
  sp : Nat
  v : Nat → Nat
  i : Nat
  dt : Nat
  ram : Nat → Nat
  disp : Nat → Bool
  keys : Nat → Bool

/-- cpu.rs `Cpu::new`: every register, the stack, the stack pointer and
the program counter start at zero. -/
def Cpu.new (ram : Nat → Nat) (disp : Nat → Bool) (keys : Nat → Bool) : Cpu :=
  { pc := 0, stack := fun _ => 0, sp := 0, v := fun _ => 0, i := 0, dt := 0,
    ram := ram, disp := disp, keys := keys }

/-- Top nibble of an opcode: `(opcode & 0xF000) >> 12`. -/
def nib1 (op : Nat) : Nat := (op &&& 0xF000) >>> 12

/-- Second nibble (the `x` register index): `(opcode & 0x0F00) >> 8`. -/
def nib2 (op : Nat) : Nat := (op &&& 0x0F00) >>> 8

/-- Third nibble (the `y` register index): `(opcode & 0x00F0) >> 4`. -/
def nib3 (op : Nat) : Nat := (op &&& 0x00F0) >>> 4

/-- Low nibble of an opcode: `opcode & 0x000F`. -/
def nib4 (op : Nat) : Nat := op &&& 0x000F

/-- cpu.rs `Cpu::process_opcode`.  The program counter is advanced by two
(wrapping as a 16-bit value) before dispatching on the four nibbles; the
final wildcard arm leaves everything but the program counter unchanged.
The byte returned by `random::<u8>()` is passed in as `rand`, the key
returned by `wait_input` as `key`.  Array accesses that the original
performs out of bounds (stack overflow or underflow, key index above 15,
memory slices beyond 4096) yield `none`. -/
def processOpcode (c0 : Cpu) (op rand key : Nat) : Option Cpu :=
  let x := nib2 op
  let y := nib3 op
  let vx := c0.v x
  let vy := c0.v y
  let nnn := op &&& 0x0FFF
  let kk := op &&& 0x00FF
  let n := op &&& 0x000F
  let op1 := nib1 op
  let op2 := nib2 op
  let op3 := nib3 op
  let op4 := nib4 op
  let c := { c0 with pc := (c0.pc + 2) % 65536 }
  if op1 = 0 ∧ op2 = 0 ∧ op3 = 0xE ∧ op4 = 0 then
    some { c with disp := fun a => if a < 2048 then false else c.disp a }
  else if op1 = 0 ∧ op2 = 0 ∧ op3 = 0xE ∧ op4 = 0xE then
    if 1 ≤ c.sp ∧ c.sp ≤ 16 then
      some { c with sp := c.sp - 1, pc := c.stack (c.sp - 1) }
    else none
  else if op1 = 1 then
    some { c with pc := nnn }
  else if op1 = 2 then
    if c.sp < 16 then
      some { c with stack := Function.update c.stack c.sp c.pc, sp := c.sp + 1, pc := nnn }
    else none
  else if op1 = 3 then
    some { c with pc := (c.pc + if vx = kk then 2 else 0) % 65536 }
  else if op1 = 4 then
    some { c with pc := (c.pc + if vx ≠ kk then 2 else 0) % 65536 }
  else if op1 = 5 then
    some { c with pc := (c.pc + if vx = vy then 2 else 0) % 65536 }
  else if op1 = 6 then
    some { c with v := Function.update c.v x kk }
  else if op1 = 7 then
    some { c with v := Function.update c.v x ((vx + kk) % 256) }
  else if op1 = 8 ∧ op4 = 0 then
    some { c with v := Function.update c.v x (c.v y) }
  else if op1 = 8 ∧ op4 = 1 then
    some { c with v := Function.update c.v x (c.v x ||| c.v y) }
  else if op1 = 8 ∧ op4 = 2 then
    some { c with v := Function.update c.v x (c.v x &&& c.v y) }
  else if op1 = 8 ∧ op4 = 3 then
    some { c with v := Function.update c.v x (c.v x ^^^ c.v y) }
  else if op1 = 8 ∧ op4 = 4 then
    let res := vx + vy
    let v1 := Function.update c.v 0xF (if 0xFF < res then 1 else 0)
    some { c with v := Function.update v1 x (res &&& 0xFF) }
  else if op1 = 8 ∧ op4 = 5 then
    -- the source computes `vx as i8 - vy as i8` and stores `res as u8`,
    -- setting VF to 1 when the wrapped signed result is negative;
    -- `res8` below is the unsigned representation of that wrapped result,
    -- and negativity of the signed value is `128 ≤ res8`
    let res8 := (vx % 256 + 256 - vy % 256) % 256
    let v1 := Function.update c.v x res8
    some { c with v := Function.update v1 0xF (if 128 ≤ res8 then 1 else 0) }
  else if op1 = 8 ∧ op4 = 6 then
    let v1 := Function.update c.v 0xF (vx &&& 0x1)
    some { c with v := Function.update v1 x (v1 x >>> 1) }
  else if op1 = 8 ∧ op4 = 7 then
    -- as for 8xy5, with the operands swapped
    let res8 := (vy % 256 + 256 - vx % 256) % 256
    let v1 := Function.update c.v x res8
    some { c with v := Function.update v1 0xF (if 128 ≤ res8 then 1 else 0) }
  else if op1 = 8 ∧ op4 = 0xE then
    let v1 := Function.update c.v 0xF (vx &&& 0x80)
    some { c with v := Function.update v1 x ((v1 x <<< 1) % 256) }
  else if op1 = 9 then
    some { c with pc := (c.pc + if vx ≠ vy then 2 else 0) % 65536 }
  else if op1 = 0xA then
    some { c with i := nnn }
  else if op1 = 0xB then
    some { c with pc := (nnn + c.v 0) % 65536 }
  else if op1 = 0xC then
    some { c with v := Function.update c.v x (rand &&& kk) }
  else if op1 = 0xD then
    if c.i + n ≤ 4096 then
      let sprite := (List.range n).map (fun j => c.ram (c.i + j))
      let res := draw c.disp vx vy sprite
      some { c with disp := res.1, v := Function.update c.v 0xF (if res.2 then 1 else 0) }
    else none
  else if op1 = 0xE ∧ op3 = 9 ∧ op4 = 0xE then
    if vx < 16 then
      some { c with pc := (c.pc + if c.keys vx then 2 else 0) % 65536 }
    else none
  else if op1 = 0xE ∧ op3 = 0xA ∧ op4 = 1 then
    if vx < 16 then
      some { c with pc := (c.pc + if c.keys vx then 0 else 2) % 65536 }
    else none
  else if op1 = 0xF ∧ op3 = 0 ∧ op4 = 7 then
    some { c with v := Function.update c.v x c.dt }
  else if op1 = 0xF ∧ op3 = 0 ∧ op4 = 0xA then
    some { c with v := Function.update c.v x key }
  else if op1 = 0xF ∧ op3 = 1 ∧ op4 = 5 then
    some { c with dt := c.v x }
  else if op1 = 0xF ∧ op3 = 1 ∧ op4 = 0xE then
    some { c with i := (c.i + c.v x) % 65536 }
  else if op1 = 0xF ∧ op3 = 2 ∧ op4 = 9 then
    some { c with i := vx * 5 }
  else if op1 = 0xF ∧ op3 = 3 ∧ op4 = 3 then
    if c.i + 2 < 4096 then
      let r1 := Function.update c.ram c.i (vx / 100)
      let r2 := Function.update r1 (c.i + 1) (vx / 10 % 10)
      some { c with ram := Function.update r2 (c.i + 2) (vx % 100 % 10) }
    else none
  else if op1 = 0xF ∧ op3 = 5 ∧ op4 = 5 then
    if c.i + (x + 1) ≤ 4096 then
      some { c with ram := fun a => if c.i ≤ a ∧ a < c.i + (x + 1) then c.v (a - c.i) else c.ram a }
    else none
  else if op1 = 0xF ∧ op3 = 6 ∧ op4 = 5 then
    if c.i + (x + 1) ≤ 4096 then
      some { c with v := fun r => if r < x + 1 then c.ram (c.i + r) else c.v r }
    else none
  else
    some c

/-- The disjunction of all the dispatch conditions of `processOpcode`, in
source order: an opcode is handled by a non-wildcard arm of the `match` in
`Cpu::process_opcode` exactly when this holds.  Note that the source arms
for the compare-skip rows accept any final nibble (`(0x5, _, _, _)` and
`(0x9, _, _, _)`). -/
def matchedOpcode (op : Nat) : Prop :=
  (nib1 op = 0 ∧ nib2 op = 0 ∧ nib3 op = 0xE ∧ nib4 op = 0) ∨
  (nib1 op = 0 ∧ nib2 op = 0 ∧ nib3 op = 0xE ∧ nib4 op = 0xE) ∨
  nib1 op = 1 ∨ nib1 op = 2 ∨ nib1 op = 3 ∨ nib1 op = 4 ∨ nib1 op = 5 ∨
  nib1 op = 6 ∨ nib1 op = 7 ∨
  (nib1 op = 8 ∧ nib4 op = 0) ∨ (nib1 op = 8 ∧ nib4 op = 1) ∨
  (nib1 op = 8 ∧ nib4 op = 2) ∨ (nib1 op = 8 ∧ nib4 op = 3) ∨
  (nib1 op = 8 ∧ nib4 op = 4) ∨ (nib1 op = 8 ∧ nib4 op = 5) ∨
  (nib1 op = 8 ∧ nib4 op = 6) ∨ (nib1 op = 8 ∧ nib4 op = 7) ∨
  (nib1 op = 8 ∧ nib4 op = 0xE) ∨
  nib1 op = 9 ∨ nib1 op = 0xA ∨ nib1 op = 0xB ∨ nib1 op = 0xC ∨ nib1 op = 0xD ∨
  (nib1 op = 0xE ∧ nib3 op = 9 ∧ nib4 op = 0xE) ∨
  (nib1 op = 0xE ∧ nib3 op = 0xA ∧ nib4 op = 1) ∨
  (nib1 op = 0xF ∧ nib3 op = 0 ∧ nib4 op = 7) ∨
  (nib1 op = 0xF ∧ nib3 op = 0 ∧ nib4 op = 0xA) ∨
  (nib1 op = 0xF ∧ nib3 op = 1 ∧ nib4 op = 5) ∨
  (nib1 op = 0xF ∧ nib3 op = 1 ∧ nib4 op = 0xE) ∨
  (nib1 op = 0xF ∧ nib3 op = 2 ∧ nib4 op = 9) ∨
  (nib1 op = 0xF ∧ nib3 op = 3 ∧ nib4 op = 3) ∨
  (nib1 op = 0xF ∧ nib3 op = 5 ∧ nib4 op = 5) ∨
  (nib1 op = 0xF ∧ nib3 op = 6 ∧ nib4 op = 5)

/-- The opcode patterns documented in the specification table (section
4.4): identical to the dispatch conditions of the source except that the
compare-skip patterns `5xy0` and `9xy0` require a final nibble of 0. -/
def documentedOpcode (op : Nat) : Prop :=
  (nib1 op = 0 ∧ nib2 op = 0 ∧ nib3 op = 0xE ∧ nib4 op = 0) ∨
  (nib1 op = 0 ∧ nib2 op = 0 ∧ nib3 op = 0xE ∧ nib4 op = 0xE) ∨
  nib1 op = 1 ∨ nib1 op = 2 ∨ nib1 op = 3 ∨ nib1 op = 4 ∨
  (nib1 op = 5 ∧ nib4 op = 0) ∨
  nib1 op = 6 ∨ nib1 op = 7 ∨
  (nib1 op = 8 ∧ nib4 op = 0) ∨ (nib1 op = 8 ∧ nib4 op = 1) ∨
  (nib1 op = 8 ∧ nib4 op = 2) ∨ (nib1 op = 8 ∧ nib4 op = 3) ∨
  (nib1 op = 8 ∧ nib4 op = 4) ∨ (nib1 op = 8 ∧ nib4 op = 5) ∨
  (nib1 op = 8 ∧ nib4 op = 6) ∨ (nib1 op = 8 ∧ nib4 op = 7) ∨
  (nib1 op = 8 ∧ nib4 op = 0xE) ∨
  (nib1 op = 9 ∧ nib4 op = 0) ∨
  nib1 op = 0xA ∨ nib1 op = 0xB ∨ nib1 op = 0xC ∨ nib1 op = 0xD ∨
  (nib1 op = 0xE ∧ nib3 op = 9 ∧ nib4 op = 0xE) ∨
  (nib1 op = 0xE ∧ nib3 op = 0xA ∧ nib4 op = 1) ∨
  (nib1 op = 0xF ∧ nib3 op = 0 ∧ nib4 op = 7) ∨
  (nib1 op = 0xF ∧ nib3 op = 0 ∧ nib4 op = 0xA) ∨
  (nib1 op = 0xF ∧ nib3 op = 1 ∧ nib4 op = 5) ∨
  (nib1 op = 0xF ∧ nib3 op = 1 ∧ nib4 op = 0xE) ∨
  (nib1 op = 0xF ∧ nib3 op = 2 ∧ nib4 op = 9) ∨
  (nib1 op = 0xF ∧ nib3 op = 3 ∧ nib4 op = 3) ∨
  (nib1 op = 0xF ∧ nib3 op = 5 ∧ nib4 op = 5) ∨
  (nib1 op = 0xF ∧ nib3 op = 6 ∧ nib4 op = 5)

/-- A freshly constructed CPU over all-zero peripherals, as built by the
test harness `get_cpu` with an all-zero ROM image. -/
def cpu0 : Cpu := Cpu.new (fun _ => 0) (fun _ => false) (fun _ => false)

/-- A CPU with `V0 = 0, V1 = 255` and all other state zero. -/
def cpuC2 : Cpu := { cpu0 with v := Function.update (fun _ => 0) 1 255 }

/-- A CPU with `VF = 200, V3 = 100` and all other state zero. -/
def cpuW9 : Cpu :=
  { cpu0 with v := Function.update (Function.update (fun _ => 0) 15 200) 3 100 }

/-- A CPU with `V0 = 20` (a key index out of range) and all other state
zero. -/
def cpuW10 : Cpu := { cpu0 with v := Function.update (fun _ => 0) 0 20 }

/-- A CPU with the address register at 768 and `Vr = r + 5`. -/
def cpuW6 : Cpu := { cpu0 with i := 768, v := fun r => r + 5 }

/-- The all-off frame buffer. -/
def dispEx : FrameBuf := fun _ => false

/-- A 33-row sprite whose rows 0 and 32 both have their leading bit set:
because the display is 32 rows tall, both bits target the same cell. -/
def spriteEx : List Nat := 128 :: (List.replicate 31 0 ++ [128])

/-- Closed form of the RAM right after `dump_fontset`: the font in the
first 80 bytes, zero elsewhere (used to state the construction lemma). -/
def fontMem : Nat → Nat := fun a => if a < 80 then FONTSET.getD a 0 else 0

/-! Helper lemmas -/

lemma and_shiftRight_eq (a b s : Nat) : (a &&& b) >>> s = (a >>> s) &&& (b >>> s) := by
  apply Nat.eq_of_testBit_eq
  intro i
  simp [Nat.testBit_shiftRight, Nat.testBit_and]

lemma nib1_eq (op : Nat) : nib1 op = op / 4096 % 16 := by
  have h : (0xF000 : Nat) >>> 12 = 2 ^ 4 - 1 := by decide
  simp only [nib1]
  rw [and_shiftRight_eq, h, Nat.and_pow_two_sub_one_eq_mod, Nat.shiftRight_eq_div_pow]

lemma nib2_eq (op : Nat) : nib2 op = op / 256 % 16 := by
  have h : (0x0F00 : Nat) >>> 8 = 2 ^ 4 - 1 := by decide
  simp only [nib2]
  rw [and_shiftRight_eq, h, Nat.and_pow_two_sub_one_eq_mod, Nat.shiftRight_eq_div_pow]

lemma nib3_eq (op : Nat) : nib3 op = op / 16 % 16 := by
  have h : (0x00F0 : Nat) >>> 4 = 2 ^ 4 - 1 := by decide
  simp only [nib3]
  rw [and_shiftRight_eq, h, Nat.and_pow_two_sub_one_eq_mod, Nat.shiftRight_eq_div_pow]

lemma nib4_eq (op : Nat) : nib4 op = op % 16 := by
  have h : (0x000F : Nat) = 2 ^ 4 - 1 := by norm_num
  simp only [nib4]
  rw [h, Nat.and_pow_two_sub_one_eq_mod]

lemma mask12_eq (op : Nat) : op &&& 0x0FFF = op % 4096 := by
  have h : (0x0FFF : Nat) = 2 ^ 12 - 1 := by norm_num
  rw [h, Nat.and_pow_two_sub_one_eq_mod]

lemma mask8_eq (op : Nat) : op &&& 0x00FF = op % 256 := by
  have h : (0x00FF : Nat) = 2 ^ 8 - 1 := by norm_num
  rw [h, Nat.and_pow_two_sub_one_eq_mod]

lemma storeListChecked_eq (size : Nat) :
    ∀ (src : List Nat) (mem : Nat → Nat) (base : Nat), base + src.length ≤ size →
      storeListChecked mem base src size =
        some (fun a => if base ≤ a ∧ a < base + src.length then src.getD (a - base) 0 else mem a) := by
  intro src
  induction src with
  | nil =>
    intro mem base h
    simp only [storeListChecked, List.length_nil, Nat.add_zero, Option.some.injEq]
    funext a
    by_cases h1 : base ≤ a ∧ a < base
    · exact absurd h1 (by omega)
    · rw [if_neg h1]
  | cons b rest ih =>
    intro mem base h
    simp only [List.length_cons] at h
    rw [storeListChecked, if_pos (by omega), ih _ _ (by omega)]
    congr 1
    funext a
    by_cases h1 : base + 1 ≤ a ∧ a < base + 1 + rest.length
    · rw [if_pos h1, if_pos (by simp only [List.length_cons]; omega)]
      have h2 : a - base = (a - base - 1) + 1 := by omega
      rw [h2, List.getD_cons_succ]
      congr 1
    · rw [if_neg h1]
      by_cases h2 : a = base
      · subst h2
        rw [Function.update_same, if_pos (by simp only [List.length_cons]; omega)]
        have h3 : a - a = 0 := by omega
        rw [h3]
        rfl
      · rw [Function.update_noteq (by omega), if_neg (by simp only [List.length_cons]; omega)]

lemma font_eq : storeListChecked (fun _ => 0) 0 FONTSET 4096 = some fontMem := by
  have hf : FONTSET.length = 80 := rfl
  rw [storeListChecked_eq 4096 FONTSET (fun _ => 0) 0 (by rw [hf]; omega)]
  congr 1
  funext a
  simp only [fontMem, hf, Nat.zero_add, Nat.zero_le, true_and, Nat.sub_zero]

/-! Claim theorems -/

/-- C1: the claim (and the spec) say the program counter starts at the
reserved program offset 0x200 = 512 on construction, but `Cpu::new`
initialises `pc` to 0, so the first instruction word would be fetched
from address 0 (inside the font table), not 512, even though
`Memory::new` places the ROM at 512.  The code contradicts the
documented memory layout; this theorem records what the code does. -/
theorem cpuNew_pc_zero (ram : Nat → Nat) (disp : Nat → Bool) (keys : Nat → Bool) :
    (Cpu.new ram disp keys).pc = 0 ∧ (Cpu.new ram disp keys).pc ≠ 512 :=
  ⟨rfl, by simp [Cpu.new]⟩

/-- C8: for a ROM of length at most 3584, `Memory::new` yields an address
space with the 80-byte font at addresses 0..79 (in particular byte 20 is
0x90, the first byte of the glyph for digit 4), the ROM unmodified at
512..512+L-1, and zero from 512+L to 4095. -/
theorem memoryConstruction (rom : List Nat) (hrom : rom.length ≤ 3584) :
    ∃ m, Memory.new rom = some m ∧
      (∀ a, a < 80 → m a = FONTSET.getD a 0) ∧
      m 20 = 0x90 ∧
      (∀ j, j < rom.length → m (512 + j) = rom.getD j 0) ∧
      (∀ a, 512 + rom.length ≤ a → a < 4096 → m a = 0) := by
  rw [Memory.new, font_eq]
  simp only [Option.some_bind]
  rw [storeListChecked_eq 4096 rom fontMem 512 (by omega)]
  refine ⟨_, rfl, ?_, ?_, ?_, ?_⟩
  · intro a ha
    simp only [fontMem]
    rw [if_neg (by omega), if_pos ha]
  · simp only [fontMem]
    rw [if_neg (by omega)]
    rfl
  · intro j hj
    simp only [fontMem]
    rw [if_pos (by omega)]
    have h2 : 512 + j - 512 = j := by omega
    rw [h2]
  · intro a h1 h2
    simp only [fontMem]
    rw [if_neg (by omega), if_neg (by omega)]

/-- C8 witness: the construction theorem instantiated at the concrete ROM
image [1, 2, 3]. -/
theorem memoryConstruction_w :
    ∃ m, Memory.new [1, 2, 3] = some m ∧
      (∀ a, a < 80 → m a = FONTSET.getD a 0) ∧
      m 20 = 0x90 ∧
      (∀ j, j < [1, 2, 3].length → m (512 + j) = [1, 2, 3].getD j 0) ∧
      (∀ a, 512 + [1, 2, 3].length ≤ a → a < 4096 → m a = 0) :=
  memoryConstruction [1, 2, 3] (by decide)

lemma drawStepP_pos (x y : Nat) (s : List Nat) (m : FrameBuf) (b : Bool) (p : Nat × Nat)
    (h : spriteBit s p.1 p.2 = true) :
    drawStepP x y s (m, b) p =
      (Function.update m (cellIdx x y p.1 p.2) (!(m (cellIdx x y p.1 p.2))),
       if m (cellIdx x y p.1 p.2) then true else b) := by
  have h1 : ((s.getD p.1 0) >>> (7 - p.2)) &&& 1 = 1 := of_decide_eq_true h
  simp only [drawStepP, drawStep]
  rw [if_pos h1, h1]
  simp only [set_pixel, get_pixel, cellIdx, beq_self_eq_true, Bool.true_xor]

lemma drawStepP_neg (x y : Nat) (s : List Nat) (m : FrameBuf) (b : Bool) (p : Nat × Nat)
    (h : spriteBit s p.1 p.2 = false) :
    drawStepP x y s (m, b) p = (m, b) := by
  have h1 : ¬ (((s.getD p.1 0) >>> (7 - p.2)) &&& 1 = 1) := of_decide_eq_false h
  simp only [drawStepP, drawStep]
  rw [if_neg h1]

lemma draw_eq_flat (m : FrameBuf) (x y : Nat) (s : List Nat) :
    draw m x y s = (spriteBits s.length).foldl (drawStepP x y s) (m, false) := by
  suffices h : ∀ (L : Nat) (st : FrameBuf × Bool),
      (List.range L).foldl
        (fun st j => (List.range 8).foldl (fun st2 i => drawStep x y (s.getD j 0) j st2 i) st) st
        = (spriteBits L).foldl (drawStepP x y s) st by
    exact h s.length (m, false)
  intro L
  induction L with
  | zero => intro st; rfl
  | succ L ih =>
    intro st
    rw [List.range_succ L, List.foldl_append, ih]
    simp only [spriteBits, List.foldl_append, List.foldl_map]
    rfl

lemma xor_not_parity (a : Bool) (n : Nat) :
    Bool.xor (!a) (n % 2 == 1) = Bool.xor a ((n + 1) % 2 == 1) := by
  rcases Nat.mod_two_eq_zero_or_one n with h | h
  · have h2 : (n + 1) % 2 = 1 := by omega
    rw [h, h2]
    cases a <;> rfl
  · have h2 : (n + 1) % 2 = 0 := by omega
    rw [h, h2]
    cases a <;> rfl

lemma drawList_pixel (x y : Nat) (s : List Nat) :
    ∀ (l : List (Nat × Nat)) (m : FrameBuf) (b : Bool) (c : Nat),
      ((l.foldl (drawStepP x y s) (m, b)).1) c =
        Bool.xor (m c)
          ((l.countP fun p => spriteBit s p.1 p.2 && (cellIdx x y p.1 p.2 == c)) % 2 == 1) := by
  intro l
  induction l with
  | nil =>
    intro m b c
    simp
  | cons p l ih =>
    intro m b c
    rw [List.foldl_cons, List.countP_cons]
    by_cases hbit : spriteBit s p.1 p.2 = true
    · rw [drawStepP_pos x y s m b p hbit]
      by_cases hc : cellIdx x y p.1 p.2 = c
      · have hpred : (spriteBit s p.1 p.2 && (cellIdx x y p.1 p.2 == c)) = true := by
          rw [hbit, hc]
          simp
        rw [if_pos hpred, ih, hc, Function.update_same, xor_not_parity]
      · have hpred : ¬ ((spriteBit s p.1 p.2 && (cellIdx x y p.1 p.2 == c)) = true) := by
          simp [hc]
        rw [ih, Function.update_noteq (Ne.symm hc), if_neg hpred, Nat.add_zero]
    · have hbit' : spriteBit s p.1 p.2 = false := by simpa using hbit
      have hpred : ¬ ((spriteBit s p.1 p.2 && (cellIdx x y p.1 p.2 == c)) = true) := by
        simp [hbit']
      rw [drawStepP_neg x y s m b p hbit', ih, if_neg hpred, Nat.add_zero]

lemma drawList_acc (x y : Nat) (s : List Nat) :
    ∀ (l : List (Nat × Nat)) (m : FrameBuf), ((l.foldl (drawStepP x y s) (m, true)).2) = true := by
  intro l
  induction l with
  | nil => intro m; rfl
  | cons p l ih =>
    intro m
    rw [List.foldl_cons]
    by_cases hbit : spriteBit s p.1 p.2 = true
    · rw [drawStepP_pos x y s m true p hbit]
      by_cases hprev : m (cellIdx x y p.1 p.2) = true
      · rw [if_pos hprev]
        exact ih _
      · rw [if_neg hprev]
        exact ih _
    · have hbit' : spriteBit s p.1 p.2 = false := by simpa using hbit
      rw [drawStepP_neg x y s m true p hbit']
      exact ih _

lemma spriteBits_length : ∀ L, (spriteBits L).length = 8 * L := by
  intro L
  induction L with
  | zero => rfl
  | succ L ih =>
    simp only [spriteBits, List.length_append, List.length_map, List.length_range, ih]
    omega

lemma drawList_collision (x y : Nat) (s : List Nat) :
    ∀ (l : List (Nat × Nat)) (m : FrameBuf),
      ((l.foldl (drawStepP x y s) (m, false)).2 = true ↔
        ∃ k, k < l.length ∧
          spriteBit s (l.getD k (0, 0)).1 (l.getD k (0, 0)).2 = true ∧
          (((l.take k).foldl (drawStepP x y s) (m, false)).1)
            (cellIdx x y (l.getD k (0, 0)).1 (l.getD k (0, 0)).2) = true) := by
  intro l
  induction l with
  | nil =>
    intro m
    simp
  | cons p l ih =>
    intro m
    rw [List.foldl_cons]
    by_cases hbit : spriteBit s p.1 p.2 = true
    · rw [drawStepP_pos x y s m false p hbit]
      by_cases hprev : m (cellIdx x y p.1 p.2) = true
      · rw [if_pos hprev]
        constructor
        · intro _
          refine ⟨0, by simp, ?_, ?_⟩
          · simpa using hbit
          · simpa using hprev
        · intro _
          exact drawList_acc x y s l _
      · rw [if_neg hprev]
        rw [ih]
        constructor
        · rintro ⟨k, hk, hkbit, hkcell⟩
          refine ⟨k + 1, by simpa using hk, by simpa using hkbit, ?_⟩
          rw [List.take_succ_cons, List.foldl_cons, drawStepP_pos x y s m false p hbit,
            if_neg hprev]
          simpa using hkcell
        · rintro ⟨k, hk, hkbit, hkcell⟩
          match k with
          | 0 =>
            simp only [List.getD_cons_zero] at hkbit hkcell
            rw [List.take_zero, List.foldl_nil] at hkcell
            exact absurd hkcell hprev
          | k + 1 =>
            simp only [List.getD_cons_succ] at hkbit hkcell
            rw [List.take_succ_cons, List.foldl_cons, drawStepP_pos x y s m false p hbit,
              if_neg hprev] at hkcell
            exact ⟨k, by simp at hk; omega, hkbit, hkcell⟩
    · have hbit' : spriteBit s p.1 p.2 = false := by simpa using hbit
      rw [drawStepP_neg x y s m false p hbit']
      rw [ih]
      constructor
      · rintro ⟨k, hk, hkbit, hkcell⟩
        refine ⟨k + 1, by simpa using hk, by simpa using hkbit, ?_⟩
        rw [List.take_succ_cons, List.foldl_cons, drawStepP_neg x y s m false p hbit']
        simpa using hkcell
      · rintro ⟨k, hk, hkbit, hkcell⟩
        match k with
        | 0 =>
          simp only [List.getD_cons_zero] at hkbit
          exact absurd hkbit (by simpa using hbit)
        | k + 1 =>
          simp only [List.getD_cons_succ] at hkbit hkcell
          rw [List.take_succ_cons, List.foldl_cons, drawStepP_neg x y s m false p hbit'] at hkcell
          exact ⟨k, by simp at hk; omega, hkbit, hkcell⟩

lemma mem_spriteBits : ∀ (L : Nat) (p : Nat × Nat), p ∈ spriteBits L ↔ p.1 < L ∧ p.2 < 8 := by
  intro L
  induction L with
  | zero =>
    intro p
    simp [spriteBits]
  | succ L ih =>
    intro p
    simp only [spriteBits, List.mem_append, List.mem_map, List.mem_range, ih]
    constructor
    · rintro (h | ⟨i, hi, rfl⟩)
      · exact ⟨by omega, h.2⟩
      · exact ⟨by omega, hi⟩
    · rintro ⟨h1, h2⟩
      by_cases hL : p.1 < L
      · exact Or.inl ⟨hL, h2⟩
      · refine Or.inr ⟨p.2, h2, ?_⟩
        have : p.1 = L := by omega
        rw [← this]

lemma pairwise_map_range (n : Nat) (f : Nat → Nat × Nat) (R : Nat × Nat → Nat × Nat → Prop)
    (h : ∀ a b, a < b → b < n → R (f a) (f b)) :
    ((List.range n).map f).Pairwise R := by
  induction n with
  | zero => simp
  | succ n ih =>
    rw [List.range_succ n, List.map_append, List.pairwise_append]
    refine ⟨ih (fun a b hab hbn => h a b hab (by omega)), by simp, ?_⟩
    intro a ha b hb
    simp only [List.mem_map, List.mem_range] at ha
    simp only [List.map_cons, List.map_nil, List.mem_singleton] at hb
    obtain ⟨i, hi, rfl⟩ := ha
    rw [hb]
    exact h i n hi (by omega)

lemma spriteBits_cellNe (x y : Nat) :
    ∀ L, L ≤ 32 →
      (spriteBits L).Pairwise (fun p q => cellIdx x y p.1 p.2 ≠ cellIdx x y q.1 q.2) := by
  intro L
  induction L with
  | zero =>
    intro _
    simp [spriteBits]
  | succ L ih =>
    intro hL
    simp only [spriteBits]
    rw [List.pairwise_append]
    refine ⟨ih (by omega), ?_, ?_⟩
    · apply pairwise_map_range
      intro a b hab hb8
      simp only [cellIdx]
      omega
    · intro p hp q hq
      rw [mem_spriteBits] at hp
      simp only [List.mem_map, List.mem_range] at hq
      obtain ⟨i, hi, rfl⟩ := hq
      simp only [cellIdx]
      omega

lemma drawList_collision_init (x y : Nat) (s : List Nat) :
    ∀ (l : List (Nat × Nat)) (m : FrameBuf),
      l.Pairwise (fun p q => cellIdx x y p.1 p.2 ≠ cellIdx x y q.1 q.2) →
      ((l.foldl (drawStepP x y s) (m, false)).2 = true ↔
        ∃ p ∈ l, spriteBit s p.1 p.2 = true ∧ m (cellIdx x y p.1 p.2) = true) := by
  intro l
  induction l with
  | nil =>
    intro m _
    simp
  | cons p l ih =>
    intro m hpw
    rw [List.pairwise_cons] at hpw
    obtain ⟨hp, hl⟩ := hpw
    rw [List.foldl_cons]
    by_cases hbit : spriteBit s p.1 p.2 = true
    · rw [drawStepP_pos x y s m false p hbit]
      by_cases hprev : m (cellIdx x y p.1 p.2) = true
      · rw [if_pos hprev]
        constructor
        · intro _
          exact ⟨p, List.mem_cons_self p l, hbit, hprev⟩
        · intro _
          exact drawList_acc x y s l _
      · rw [if_neg hprev]
        have hprev' : m (cellIdx x y p.1 p.2) = false := by simpa using hprev
        rw [ih _ hl]
        constructor
        · rintro ⟨q, hq, hqbit, hqcell⟩
          refine ⟨q, List.mem_cons_of_mem p hq, hqbit, ?_⟩
          rwa [Function.update_noteq (Ne.symm (hp q hq))] at hqcell
        · rintro ⟨q, hq, hqbit, hqcell⟩
          rcases List.mem_cons.mp hq with rfl | hq'
          · exact absurd hqcell hprev
          · refine ⟨q, hq', hqbit, ?_⟩
            rwa [Function.update_noteq (Ne.symm (hp q hq'))]
    · have hbit' : spriteBit s p.1 p.2 = false := by simpa using hbit
      rw [drawStepP_neg x y s m false p hbit', ih _ hl]
      constructor
      · rintro ⟨q, hq, hqbit, hqcell⟩
        exact ⟨q, List.mem_cons_of_mem p hq, hqbit, hqcell⟩
      · rintro ⟨q, hq, hqbit, hqcell⟩
        rcases List.mem_cons.mp hq with rfl | hq'
        · exact absurd hqbit (by simpa using hbit)
        · exact ⟨q, hq', hqbit, hqcell⟩

lemma drawCollisionInj (x y : Nat) (s : List Nat) (hs : s.length ≤ 32) (m : FrameBuf) :
    ((draw m x y s).2 = true ↔
      ∃ j, j < s.length ∧ ∃ i, i < 8 ∧ spriteBit s j i = true ∧
        m (cellIdx x y j i) = true) := by
  rw [draw_eq_flat,
    drawList_collision_init x y s (spriteBits s.length) m (spriteBits_cellNe x y s.length hs)]
  constructor
  · rintro ⟨q, hq, hqbit, hqcell⟩
    rw [mem_spriteBits] at hq
    exact ⟨q.1, hq.1, q.2, hq.2, hqbit, hqcell⟩
  · rintro ⟨j, hj, i, hi, hbit, hcell⟩
    exact ⟨(j, i), (mem_spriteBits s.length (j, i)).mpr ⟨hj, hi⟩, hbit, hcell⟩

/-- C3: `draw` toggles exactly the cells targeted by the 1-bits of the
sprite, at wrapped coordinates `((x+i) mod 64, (y+j) mod 32)`: the final
value of any cell is its initial value XORed with the parity of the
number of 1-bits that land on it (so a cell no 1-bit lands on is never
changed, and zero bits are no-ops); the collision flag is true exactly
when some 1-bit lands on a cell that is on in the state just before that
bit is processed ("on before its toggle"). -/
theorem drawSpecification (m : FrameBuf) (x y : Nat) (s : List Nat) :
    (∀ c, (draw m x y s).1 c =
        Bool.xor (m c)
          (((spriteBits s.length).countP
            fun p => spriteBit s p.1 p.2 && (cellIdx x y p.1 p.2 == c)) % 2 == 1)) ∧
    ((draw m x y s).2 = true ↔
      ∃ k, k < 8 * s.length ∧
        spriteBit s ((spriteBits s.length).getD k (0, 0)).1
          ((spriteBits s.length).getD k (0, 0)).2 = true ∧
        (drawUpTo m x y s k).1
          (cellIdx x y ((spriteBits s.length).getD k (0, 0)).1
            ((spriteBits s.length).getD k (0, 0)).2) = true) := by
  constructor
  · intro c
    rw [draw_eq_flat, drawList_pixel]
  · rw [draw_eq_flat, drawList_collision]
    simp only [drawUpTo, spriteBits_length]

set_option maxRecDepth 100000 in
/-- C4 counterexample: for the 33-row sprite `spriteEx` (rows 0 and 32
both have their leading bit set, and the display is only 32 rows tall,
so both bits target the same cell), drawing twice at (0,0) from the
all-off frame buffer makes the second call report a collision even
though no 1-bit of the sprite lands on a cell that is on in the state
produced by the first draw (that state is all off): the claim's
characterisation of the second collision flag fails. -/
theorem drawTwice_cex :
    (draw (draw dispEx 0 0 spriteEx).1 0 0 spriteEx).2 = true ∧
    (∀ j, j < spriteEx.length → ∀ i, i < 8 → spriteBit spriteEx j i = true →
      (draw dispEx 0 0 spriteEx).1 (cellIdx 0 0 j i) = false) := by
  constructor
  · decide
  · decide

/-- C4 (amended): drawing the same sprite twice at the same location with
no intervening mutation restores every pixel (for every sprite); and for
sprites of at most 32 rows — so that no two sprite bits target the same
cell, which the counterexample shows is needed — the second call's
collision flag is true exactly when some 1-bit of the sprite lands on a
cell that is on in the state produced by the first draw. -/
theorem drawTwice (m : FrameBuf) (x y : Nat) (s : List Nat) :
    (∀ c, (draw (draw m x y s).1 x y s).1 c = m c) ∧
    (s.length ≤ 32 →
      ((draw (draw m x y s).1 x y s).2 = true ↔
        ∃ j, j < s.length ∧ ∃ i, i < 8 ∧ spriteBit s j i = true ∧
          (draw m x y s).1 (cellIdx x y j i) = true)) := by
  constructor
  · intro c
    rw [draw_eq_flat (draw m x y s).1, drawList_pixel, draw_eq_flat m, drawList_pixel,
      Bool.xor_assoc, Bool.xor_self, Bool.xor_false]
  · intro hs
    exact drawCollisionInj x y s hs (draw m x y s).1

/-- C4 witness: the amended theorem at the one-row sprite [0x80] drawn at
(2, 3): the double draw restores the buffer and the second collision flag
is characterised by the state after the first draw. -/
theorem drawTwice_w :
    (∀ c, (draw (draw dispEx 2 3 [128]).1 2 3 [128]).1 c = dispEx c) ∧
    ((draw (draw dispEx 2 3 [128]).1 2 3 [128]).2 = true ↔
      ∃ j, j < [128].length ∧ ∃ i, i < 8 ∧ spriteBit [128] j i = true ∧
        (draw dispEx 2 3 [128]).1 (cellIdx 2 3 j i) = true) :=
  ⟨(drawTwice dispEx 2 3 [128]).1, (drawTwice dispEx 2 3 [128]).2 (by decide)⟩

/-- C2 counterexample: with V0 = 0 and V1 = 255, executing 8015 stores
the wrapped difference 1 in V0 but sets VF = 0 even though Vy = 255 is
larger than Vx = 0 as unsigned bytes, so "VF = 1 exactly when Vy > Vx"
fails on the code. -/
theorem subBorrow_cex :
    (processOpcode cpuC2 0x8015 0 0).map (fun c' => (c'.v 0, c'.v 15)) = some (1, 0) ∧
    cpuC2.v 0 < cpuC2.v 1 := by
  constructor
  · decide
  · decide

/-- C2 (amended): for every register index x not equal to 0xF and 8-bit
register values, executing 8xy5 stores the wrapped 8-bit result of
Vx - Vy into Vx without faulting, and sets VF to 1 exactly when that
wrapped result is at least 128 (i.e. the two's-complement signed result
is negative, as the source computes) — not when Vy > Vx as unsigned
bytes. -/
theorem subBorrowFlag (c : Cpu) (x y r k : Nat) (hx : x < 16) (hy : y < 16) (hxf : x ≠ 15)
    (hvx : c.v x < 256) (hvy : c.v y < 256) :
    ∃ c', processOpcode c (0x8005 + x * 256 + y * 16) r k = some c' ∧
      c'.v x = (c.v x + 256 - c.v y) % 256 ∧
      (c'.v 15 = 1 ↔ 128 ≤ (c.v x + 256 - c.v y) % 256) ∧
      (c'.v 15 = 0 ↔ (c.v x + 256 - c.v y) % 256 < 128) := by
  have h1 : nib1 (0x8005 + x * 256 + y * 16) = 8 := by rw [nib1_eq]; omega
  have h2 : nib2 (0x8005 + x * 256 + y * 16) = x := by rw [nib2_eq]; omega
  have h3 : nib3 (0x8005 + x * 256 + y * 16) = y := by rw [nib3_eq]; omega
  have h4 : nib4 (0x8005 + x * 256 + y * 16) = 5 := by rw [nib4_eq]; omega
  simp only [processOpcode, h1, h2, h3, h4]
  norm_num
  rw [Nat.mod_eq_of_lt hvx, Nat.mod_eq_of_lt hvy, Function.update_noteq hxf]
  simp

lemma dispatch_call (c : Cpu) (nnn r1 k1 : Nat) (hsp : c.sp ≤ 14) (hnnn : nnn < 4096) :
    processOpcode c (0x2000 + nnn) r1 k1 =
      some { c with
        pc := nnn,
        stack := Function.update c.stack c.sp ((c.pc + 2) % 65536),
        sp := c.sp + 1 } := by
  have h1 : nib1 (0x2000 + nnn) = 2 := by rw [nib1_eq]; omega
  have hm : (0x2000 + nnn) &&& 0x0FFF = nnn := by rw [mask12_eq]; omega
  simp only [processOpcode, h1, hm]
  norm_num
  intro h
  omega

lemma dispatch_ret (c1 : Cpu) (r2 k2 : Nat) (hsp1 : 1 ≤ c1.sp) (hsp2 : c1.sp ≤ 16) :
    processOpcode c1 0x00EE r2 k2 =
      some { c1 with sp := c1.sp - 1, pc := c1.stack (c1.sp - 1) } := by
  have h1 : nib1 0x00EE = 0 := by decide
  have h2 : nib2 0x00EE = 0 := by decide
  have h3 : nib3 0x00EE = 0xE := by decide
  have h4 : nib4 0x00EE = 0xE := by decide
  simp only [processOpcode, h1, h2, h3, h4]
  norm_num
  intro h
  exact absurd (h hsp1) (by omega)

/-- C5: with stack pointer at most 14, CALL (2nnn) pushes the advanced
program counter pc+2 into stack[sp], increments sp, and jumps to nnn; a
subsequent RET (00EE) decrements sp back and restores the program counter
to exactly the pushed value pc+2. -/
theorem callRetRoundTrip (c : Cpu) (nnn r1 k1 r2 k2 : Nat)
    (hsp : c.sp ≤ 14) (hnnn : nnn < 4096) (hpc : c.pc + 2 < 65536) :
    ∃ c1 c2,
      processOpcode c (0x2000 + nnn) r1 k1 = some c1 ∧
      c1.stack c.sp = c.pc + 2 ∧ c1.sp = c.sp + 1 ∧ c1.pc = nnn ∧
      processOpcode c1 0x00EE r2 k2 = some c2 ∧
      c2.sp = c.sp ∧ c2.pc = c.pc + 2 := by
  have hmod : (c.pc + 2) % 65536 = c.pc + 2 := Nat.mod_eq_of_lt hpc
  refine ⟨_, _, dispatch_call c nnn r1 k1 hsp hnnn, ?_, rfl, rfl,
    dispatch_ret _ r2 k2 ?_ ?_, ?_, ?_⟩
  · show Function.update c.stack c.sp ((c.pc + 2) % 65536) c.sp = c.pc + 2
    rw [Function.update_same]
    exact hmod
  · show 1 ≤ c.sp + 1
    omega
  · show c.sp + 1 ≤ 16
    omega
  · show c.sp + 1 - 1 = c.sp
    omega
  · show Function.update c.stack c.sp ((c.pc + 2) % 65536) (c.sp + 1 - 1) = c.pc + 2
    have h : c.sp + 1 - 1 = c.sp := by omega
    rw [h, Function.update_same]
    exact hmod

/-- C5 witness: the round trip from the freshly constructed CPU with
call target 0xABC. -/
theorem callRetRoundTrip_w :
    ∃ c1 c2,
      processOpcode cpu0 (0x2000 + 0xABC) 0 0 = some c1 ∧
      c1.stack cpu0.sp = cpu0.pc + 2 ∧ c1.sp = cpu0.sp + 1 ∧ c1.pc = 0xABC ∧
      processOpcode c1 0x00EE 0 0 = some c2 ∧
      c2.sp = cpu0.sp ∧ c2.pc = cpu0.pc + 2 :=
  callRetRoundTrip cpu0 0xABC 0 0 0 0 (by decide) (by decide) (by decide)

lemma dispatch_f55 (c : Cpu) (n r k : Nat) (hn : n ≤ 15) (hb : c.i + n < 4096) :
    processOpcode c (0xF055 + n * 256) r k =
      some { c with
        pc := (c.pc + 2) % 65536,
        ram := fun a => if c.i ≤ a ∧ a < c.i + (n + 1) then c.v (a - c.i) else c.ram a } := by
  have h1 : nib1 (0xF055 + n * 256) = 15 := by rw [nib1_eq]; omega
  have h2 : nib2 (0xF055 + n * 256) = n := by rw [nib2_eq]; omega
  have h3 : nib3 (0xF055 + n * 256) = 5 := by rw [nib3_eq]; omega
  have h4 : nib4 (0xF055 + n * 256) = 5 := by rw [nib4_eq]; omega
  simp only [processOpcode, h1, h2, h3, h4]
  norm_num
  intro h
  omega

lemma dispatch_f65 (c : Cpu) (n r k : Nat) (hn : n ≤ 15) (hb : c.i + n < 4096) :
    processOpcode c (0xF065 + n * 256) r k =
      some { c with
        pc := (c.pc + 2) % 65536,
        v := fun q => if q < n + 1 then c.ram (c.i + q) else c.v q } := by
  have h1 : nib1 (0xF065 + n * 256) = 15 := by rw [nib1_eq]; omega
  have h2 : nib2 (0xF065 + n * 256) = n := by rw [nib2_eq]; omega
  have h3 : nib3 (0xF065 + n * 256) = 6 := by rw [nib3_eq]; omega
  have h4 : nib4 (0xF065 + n * 256) = 5 := by rw [nib4_eq]; omega
  simp only [processOpcode, h1, h2, h3, h4]
  norm_num
  intro h
  omega

/-- C6: executing Fx55 with x = n (n at most 15, I + n inside memory)
writes V0..Vn to memory at I..I+n, leaves the byte at I+n+1 and every
other address unchanged, and leaves the registers and I intact; executing
Fx65 with the same I and n afterwards restores V0..Vn to exactly the
values that were written, without touching memory. -/
theorem storeLoadRoundTrip (c : Cpu) (n r1 k1 r2 k2 : Nat) (hn : n ≤ 15)
    (hb : c.i + n < 4096) :
    ∃ c1 c2,
      processOpcode c (0xF055 + n * 256) r1 k1 = some c1 ∧
      (∀ a, c.i ≤ a → a ≤ c.i + n → c1.ram a = c.v (a - c.i)) ∧
      (∀ a, a < c.i ∨ c.i + n < a → c1.ram a = c.ram a) ∧
      c1.v = c.v ∧ c1.i = c.i ∧
      processOpcode c1 (0xF065 + n * 256) r2 k2 = some c2 ∧
      (∀ q, q ≤ n → c2.v q = c.v q) ∧
      c2.ram = c1.ram := by
  refine ⟨_, _, dispatch_f55 c n r1 k1 hn hb, ?_, ?_, rfl, rfl,
    dispatch_f65 _ n r2 k2 hn hb, ?_, rfl⟩
  · intro a h1 h2
    show (if c.i ≤ a ∧ a < c.i + (n + 1) then c.v (a - c.i) else c.ram a) = c.v (a - c.i)
    rw [if_pos ⟨h1, by omega⟩]
  · intro a h
    show (if c.i ≤ a ∧ a < c.i + (n + 1) then c.v (a - c.i) else c.ram a) = c.ram a
    rw [if_neg (by omega)]
  · intro q hq
    show (if q < n + 1 then
        (if c.i ≤ c.i + q ∧ c.i + q < c.i + (n + 1) then c.v (c.i + q - c.i) else c.ram (c.i + q))
      else c.v q) = c.v q
    rw [if_pos (by omega), if_pos ⟨by omega, by omega⟩]
    have h : c.i + q - c.i = q := by omega
    rw [h]

/-- C6 witness: the round trip at I = 768, n = 2 over the register file
Vr = r + 5. -/
theorem storeLoadRoundTrip_w :
    ∃ c1 c2,
      processOpcode cpuW6 (0xF055 + 2 * 256) 0 0 = some c1 ∧
      (∀ a, cpuW6.i ≤ a → a ≤ cpuW6.i + 2 → c1.ram a = cpuW6.v (a - cpuW6.i)) ∧
      (∀ a, a < cpuW6.i ∨ cpuW6.i + 2 < a → c1.ram a = cpuW6.ram a) ∧
      c1.v = cpuW6.v ∧ c1.i = cpuW6.i ∧
      processOpcode c1 (0xF065 + 2 * 256) 0 0 = some c2 ∧
      (∀ q, q ≤ 2 → c2.v q = cpuW6.v q) ∧
      c2.ram = c1.ram :=
  storeLoadRoundTrip cpuW6 2 0 0 0 0 (by decide) (by decide)

lemma dispatch_e9e (c : Cpu) (x r k : Nat) (hx : x < 16) (hvx : c.v x < 16) :
    processOpcode c (0xE09E + x * 256) r k =
      some { c with
        pc := ((c.pc + 2) % 65536 + if c.keys (c.v x) then 2 else 0) % 65536 } := by
  have h1 : nib1 (0xE09E + x * 256) = 14 := by rw [nib1_eq]; omega
  have h2 : nib2 (0xE09E + x * 256) = x := by rw [nib2_eq]; omega
  have h3 : nib3 (0xE09E + x * 256) = 9 := by rw [nib3_eq]; omega
  have h4 : nib4 (0xE09E + x * 256) = 14 := by rw [nib4_eq]; omega
  simp only [processOpcode, h1, h2, h3, h4]
  norm_num
  intro h
  omega

lemma dispatch_e9e_oob (c : Cpu) (x r k : Nat) (hx : x < 16) (hvx : 15 < c.v x) :
    processOpcode c (0xE09E + x * 256) r k = none := by
  have h1 : nib1 (0xE09E + x * 256) = 14 := by rw [nib1_eq]; omega
  have h2 : nib2 (0xE09E + x * 256) = x := by rw [nib2_eq]; omega
  have h3 : nib3 (0xE09E + x * 256) = 9 := by rw [nib3_eq]; omega
  have h4 : nib4 (0xE09E + x * 256) = 14 := by rw [nib4_eq]; omega
  simp only [processOpcode, h1, h2, h3, h4]
  norm_num
  intro h
  omega

lemma dispatch_ea1 (c : Cpu) (x r k : Nat) (hx : x < 16) (hvx : c.v x < 16) :
    processOpcode c (0xE0A1 + x * 256) r k =
      some { c with
        pc := ((c.pc + 2) % 65536 + if c.keys (c.v x) then 0 else 2) % 65536 } := by
  have h1 : nib1 (0xE0A1 + x * 256) = 14 := by rw [nib1_eq]; omega
  have h2 : nib2 (0xE0A1 + x * 256) = x := by rw [nib2_eq]; omega
  have h3 : nib3 (0xE0A1 + x * 256) = 10 := by rw [nib3_eq]; omega
  have h4 : nib4 (0xE0A1 + x * 256) = 1 := by rw [nib4_eq]; omega
  simp only [processOpcode, h1, h2, h3, h4]
  norm_num
  intro h
  omega

lemma dispatch_ea1_oob (c : Cpu) (x r k : Nat) (hx : x < 16) (hvx : 15 < c.v x) :
    processOpcode c (0xE0A1 + x * 256) r k = none := by
  have h1 : nib1 (0xE0A1 + x * 256) = 14 := by rw [nib1_eq]; omega
  have h2 : nib2 (0xE0A1 + x * 256) = x := by rw [nib2_eq]; omega
  have h3 : nib3 (0xE0A1 + x * 256) = 10 := by rw [nib3_eq]; omega
  have h4 : nib4 (0xE0A1 + x * 256) = 1 := by rw [nib4_eq]; omega
  simp only [processOpcode, h1, h2, h3, h4]
  norm_num
  intro h
  omega

/-- C10: the key-skip opcodes Ex9E and ExA1 pass the raw value of Vx to
`is_key_down`, which indexes a 16-entry array: when Vx is at most 15 the
lookup is in bounds and the instruction completes; when Vx exceeds 15 the
lookup is an out-of-bounds fault rather than a skip decision. -/
theorem keySkipBounds (c : Cpu) (x r k : Nat) (hx : x < 16) :
    (c.v x ≤ 15 →
      (processOpcode c (0xE09E + x * 256) r k).isSome = true ∧
      (processOpcode c (0xE0A1 + x * 256) r k).isSome = true) ∧
    (15 < c.v x →
      processOpcode c (0xE09E + x * 256) r k = none ∧
      processOpcode c (0xE0A1 + x * 256) r k = none) := by
  constructor
  · intro hv
    rw [dispatch_e9e c x r k hx (by omega), dispatch_ea1 c x r k hx (by omega)]
    exact ⟨rfl, rfl⟩
  · intro hv
    exact ⟨dispatch_e9e_oob c x r k hx hv, dispatch_ea1_oob c x r k hx hv⟩

/-- C10 witness: the bounds dichotomy applied both to a CPU whose V0 is 0
(in bounds) and to one whose V0 is 20 (out of bounds). -/
theorem keySkipBounds_w :
    ((cpu0.v 0 ≤ 15 →
      (processOpcode cpu0 (0xE09E + 0 * 256) 0 0).isSome = true ∧
      (processOpcode cpu0 (0xE0A1 + 0 * 256) 0 0).isSome = true) ∧
     (15 < cpu0.v 0 →
      processOpcode cpu0 (0xE09E + 0 * 256) 0 0 = none ∧
      processOpcode cpu0 (0xE0A1 + 0 * 256) 0 0 = none)) ∧
    ((cpuW10.v 0 ≤ 15 →
      (processOpcode cpuW10 (0xE09E + 0 * 256) 0 0).isSome = true ∧
      (processOpcode cpuW10 (0xE0A1 + 0 * 256) 0 0).isSome = true) ∧
     (15 < cpuW10.v 0 →
      processOpcode cpuW10 (0xE09E + 0 * 256) 0 0 = none ∧
      processOpcode cpuW10 (0xE0A1 + 0 * 256) 0 0 = none)) :=
  ⟨keySkipBounds cpu0 0 0 0 (by decide), keySkipBounds cpuW10 0 0 0 (by decide)⟩

/-- C9: when the destination register is VF itself, write order decides
the final value: 8Fy4 assigns the carry flag first and the low 8 bits of
the sum VF + Vy second, so VF ends up holding the wrapped sum; 8Fy5 and
8Fy7 assign the wrapped difference first and the borrow flag second, so
VF ends up holding the flag (1 exactly when the wrapped difference is at
least 128, else 0). -/
theorem vfWriteOrder (c : Cpu) (y r k : Nat) (hy : y < 16)
    (h15 : c.v 15 < 256) (hvy : c.v y < 256) :
    (∃ c4, processOpcode c (0x8F04 + y * 16) r k = some c4 ∧
      c4.v 15 = (c.v 15 + c.v y) % 256) ∧
    (∃ c5, processOpcode c (0x8F05 + y * 16) r k = some c5 ∧
      c5.v 15 = (if 128 ≤ (c.v 15 + 256 - c.v y) % 256 then 1 else 0)) ∧
    (∃ c7, processOpcode c (0x8F07 + y * 16) r k = some c7 ∧
      c7.v 15 = (if 128 ≤ (c.v y + 256 - c.v 15) % 256 then 1 else 0)) := by
  refine ⟨?_, ?_, ?_⟩
  · have h1 : nib1 (0x8F04 + y * 16) = 8 := by rw [nib1_eq]; omega
    have h2 : nib2 (0x8F04 + y * 16) = 15 := by rw [nib2_eq]; omega
    have h3 : nib3 (0x8F04 + y * 16) = y := by rw [nib3_eq]; omega
    have h4 : nib4 (0x8F04 + y * 16) = 4 := by rw [nib4_eq]; omega
    simp only [processOpcode, h1, h2, h3, h4]
    norm_num
    rw [mask8_eq]
  · have h1 : nib1 (0x8F05 + y * 16) = 8 := by rw [nib1_eq]; omega
    have h2 : nib2 (0x8F05 + y * 16) = 15 := by rw [nib2_eq]; omega
    have h3 : nib3 (0x8F05 + y * 16) = y := by rw [nib3_eq]; omega
    have h4 : nib4 (0x8F05 + y * 16) = 5 := by rw [nib4_eq]; omega
    simp only [processOpcode, h1, h2, h3, h4]
    norm_num
    rw [Nat.mod_eq_of_lt h15, Nat.mod_eq_of_lt hvy]
  · have h1 : nib1 (0x8F07 + y * 16) = 8 := by rw [nib1_eq]; omega
    have h2 : nib2 (0x8F07 + y * 16) = 15 := by rw [nib2_eq]; omega
    have h3 : nib3 (0x8F07 + y * 16) = y := by rw [nib3_eq]; omega
    have h4 : nib4 (0x8F07 + y * 16) = 7 := by rw [nib4_eq]; omega
    simp only [processOpcode, h1, h2, h3, h4]
    norm_num
    rw [Nat.mod_eq_of_lt h15, Nat.mod_eq_of_lt hvy]

/-- C9 witness: the write-order theorem at VF = 200, V3 = 100. -/
theorem vfWriteOrder_w :
    (∃ c4, processOpcode cpuW9 (0x8F04 + 3 * 16) 0 0 = some c4 ∧
      c4.v 15 = (cpuW9.v 15 + cpuW9.v 3) % 256) ∧
    (∃ c5, processOpcode cpuW9 (0x8F05 + 3 * 16) 0 0 = some c5 ∧
      c5.v 15 = (if 128 ≤ (cpuW9.v 15 + 256 - cpuW9.v 3) % 256 then 1 else 0)) ∧
    (∃ c7, processOpcode cpuW9 (0x8F07 + 3 * 16) 0 0 = some c7 ∧
      c7.v 15 = (if 128 ≤ (cpuW9.v 3 + 256 - cpuW9.v 15) % 256 then 1 else 0)) :=
  vfWriteOrder cpuW9 3 0 0 (by decide) (by decide) (by decide)

lemma documented_5011_false : ¬ documentedOpcode 0x5011 := by
  have e1 : nib1 0x5011 = 5 := by decide
  have e2 : nib2 0x5011 = 0 := by decide
  have e3 : nib3 0x5011 = 1 := by decide
  have e4 : nib4 0x5011 = 1 := by decide
  intro h
  rw [documentedOpcode] at h
  simp only [e1, e2, e3, e4] at h
  omega

lemma matched_zero_false : ¬ matchedOpcode 0 := by
  have e1 : nib1 0 = 0 := by decide
  have e2 : nib2 0 = 0 := by decide
  have e3 : nib3 0 = 0 := by decide
  have e4 : nib4 0 = 0 := by decide
  intro h
  rw [matchedOpcode] at h
  simp only [e1, e2, e3, e4] at h
  omega

/-- C7 counterexample: opcode 0x5011 matches none of the documented
patterns (the table documents 5xy0, requiring a final nibble of 0), yet
on the freshly constructed CPU (where V0 = V1) the source dispatch treats
it as SE Vx Vy via the arm `(0x5, _, _, _)` and advances the program
counter by 4, not 2 — it is not a no-op for the documented-table reading
of "unknown". -/
theorem unknownOpcode_cex :
    ¬ documentedOpcode 0x5011 ∧
    (processOpcode cpu0 0x5011 0 0).map Cpu.pc = some 4 := by
  constructor
  · exact documented_5011_false
  · decide

/-- C7 (amended): every 16-bit opcode that matches none of the dispatch
arms of the source `match` — in which the compare-skip rows accept any
final nibble (`5xy?`, `9xy?`), unlike the documented table — is a silent
no-op except that pc advances by exactly 2: registers, I, stack, stack
pointer, delay timer, memory and frame buffer are all unchanged and no
fault is raised. -/
theorem unknownOpcodeNoop (c : Cpu) (op r k : Nat) (hop : op < 65536)
    (hm : ¬ matchedOpcode op) (hpc : c.pc + 2 < 65536) :
    processOpcode c op r k = some { c with pc := c.pc + 2 } := by
  rw [matchedOpcode] at hm
  simp only [not_or] at hm
  obtain ⟨m1, m2, m3, m4, m5, m6, m7, m8, m9, m10, m11, m12, m13, m14, m15, m16, m17, m18,
    m19, m20, m21, m22, m23, m24, m25, m26, m27, m28, m29, m30, m31, m32, m33⟩ := hm
  simp only [processOpcode]
  rw [if_neg m1, if_neg m2, if_neg m3, if_neg m4, if_neg m5, if_neg m6, if_neg m7,
    if_neg m8, if_neg m9, if_neg m10, if_neg m11, if_neg m12, if_neg m13, if_neg m14,
    if_neg m15, if_neg m16, if_neg m17, if_neg m18, if_neg m19, if_neg m20, if_neg m21,
    if_neg m22, if_neg m23, if_neg m24, if_neg m25, if_neg m26, if_neg m27, if_neg m28,
    if_neg m29, if_neg m30, if_neg m31, if_neg m32, if_neg m33, Nat.mod_eq_of_lt hpc]

/-- C7 witness: opcode 0x0000 matches no dispatch arm and is processed as
a pure pc advance on the fresh CPU. -/
theorem unknownOpcodeNoop_w :
    processOpcode cpu0 0x0000 0 0 = some { cpu0 with pc := cpu0.pc + 2 } :=
  unknownOpcodeNoop cpu0 0x0000 0 0 (by decide) matched_zero_false (by decide)

/-- C2 witness: the amended subtraction theorem at V0 = 0, V1 = 255. -/
theorem subBorrowFlag_w :
    ∃ c', processOpcode cpuC2 (0x8005 + 0 * 256 + 1 * 16) 0 0 = some c' ∧
      c'.v 0 = (cpuC2.v 0 + 256 - cpuC2.v 1) % 256 ∧
      (c'.v 15 = 1 ↔ 128 ≤ (cpuC2.v 0 + 256 - cpuC2.v 1) % 256) ∧
      (c'.v 15 = 0 ↔ (cpuC2.v 0 + 256 - cpuC2.v 1) % 256 < 128) :=
  subBorrowFlag cpuC2 0 1 0 0 (by decide) (by decide) (by decide) (by decide) (by decide)
